import Mathlib

/-!
Verification of the geo tile downloader (`src/src/downloader.js`, `src/src/geo.js`,
`src/index.js`) against its natural-language specification.

JavaScript strings are modelled as lists of characters (`Str`).  Machine numbers
that the code only ever uses as non-negative integers (tile indices, zoom levels,
counters) are modelled as `Nat`; the real-valued Web-Mercator projection of
`geo.js` is modelled over `ℝ`.  Filesystem state is a list of paths, the HTTP
client is an oracle `Str → Bool` (true = the GET and the subsequent write
succeed), and `Math.random`'s subdomain pick is an explicit index parameter.
-/

/-- JavaScript strings, modelled as lists of characters. -/
abbrev Str := List Char

/-- Decimal digits of a natural number, most significant first, with explicit
fuel (the fuel is always sufficient since `n / 10 < n`).  Models JavaScript's
`Number.prototype.toString` for non-negative integers. -/
def natToCharsAux : Nat → Nat → Str → Str
  | 0, _, acc => acc
  | fuel + 1, n, acc =>
    if n < 10 then Char.ofNat (48 + n % 10) :: acc
    else natToCharsAux fuel (n / 10) (Char.ofNat (48 + n % 10) :: acc)

/-- Decimal string of a natural number (JavaScript `x.toString()` / `${x}`). -/
def natToChars (n : Nat) : Str := natToCharsAux (n + 1) n []

/-- Every character that `natToCharsAux` puts in front of `acc` is a decimal
digit character. -/
theorem natToCharsAux_mem (fuel : Nat) :
    ∀ (n : Nat) (acc : Str) (c : Char), c ∈ natToCharsAux fuel n acc →
      c ∈ acc ∨ ∃ d : Fin 10, c = Char.ofNat (48 + d.val) := by
  induction fuel with
  | zero => intro n acc c h; exact Or.inl h
  | succ fuel ih =>
    intro n acc c h
    simp only [natToCharsAux] at h
    by_cases hn : n < 10
    · rw [if_pos hn] at h
      rcases List.mem_cons.mp h with h | h
      · exact Or.inr ⟨⟨n % 10, Nat.mod_lt _ (by decide)⟩, h⟩
      · exact Or.inl h
    · rw [if_neg hn] at h
      rcases ih (n / 10) _ c h with h | h
      · rcases List.mem_cons.mp h with h | h
        · exact Or.inr ⟨⟨n % 10, Nat.mod_lt _ (by decide)⟩, h⟩
        · exact Or.inl h
      · exact Or.inr h

/-- A decimal digit character is not the path separator. -/
theorem digitChar_ne_slash : ∀ d : Fin 10, Char.ofNat (48 + d.val) ≠ '/' := by decide

/-- The decimal representation of a natural number contains no path separator. -/
theorem natToChars_count_slash (n : Nat) : (natToChars n).count '/' = 0 := by
  rw [List.count_eq_zero]
  intro h
  rcases natToCharsAux_mem (n + 1) n [] '/' h with h | ⟨d, hd⟩
  · exact absurd h (List.not_mem_nil _)
  · exact digitChar_ne_slash d hd.symm

/-- The quadrant digit of `getMicrosoftVETile` for one zoom level: `c = 0`,
incremented by 1 if `x` is odd and by 2 if `y` is odd, rendered as a character. -/
def veDigit (x y : Nat) : Char := Char.ofNat (48 + (x % 2 + 2 * (y % 2)))

/-- The digit string built by the loop of `getMicrosoftVETile` for `level ≥ 1`:
each iteration prepends the quadrant digit of the current coordinates and then
halves them, so the digit of the original `(x, y)` ends up last. -/
def veTileDigits : Nat → Nat → Nat → Str
  | 0, _, _ => []
  | level + 1, x, y => veTileDigits level (x / 2) (y / 2) ++ [veDigit x y]

/-- `getMicrosoftVETile` from `downloader.js`: `"_"` at level 0, otherwise the
quadrant-digit string. -/
def getMicrosoftVETile (level x y : Nat) : Str :=
  if level = 0 then ['_'] else veTileDigits level x y

theorem veTileDigits_length (level : Nat) :
    ∀ x y, (veTileDigits level x y).length = level := by
  induction level with
  | zero => intro x y; rfl
  | succ level ih =>
    intro x y
    simp [veTileDigits, ih]

/-- Quadrant digits are the characters `'0'`–`'3'`; in particular they are
neither `'_'` nor `'/'`. -/
theorem veDigit_ne (x y : Nat) : veDigit x y ≠ '_' ∧ veDigit x y ≠ '/' := by
  have hx : x % 2 < 2 := Nat.mod_lt _ (by decide)
  have hy : y % 2 < 2 := Nat.mod_lt _ (by decide)
  have h : ∀ a b : Fin 2, Char.ofNat (48 + (a.val + 2 * b.val)) ≠ '_' ∧
      Char.ofNat (48 + (a.val + 2 * b.val)) ≠ '/' := by decide
  exact h ⟨x % 2, hx⟩ ⟨y % 2, hy⟩

/-- `createTileLevelPath`'s join of the digit characters with the path
separator: `"c1/c2/…/cn"`. -/
def tileLevelJoin : Str → Str
  | [] => []
  | [c] => [c]
  | c :: c' :: cs => c :: '/' :: tileLevelJoin (c' :: cs)

/-- `createTileLevelPath` from `downloader.js`: empty at level 0 (the `"_"`
marker), otherwise one directory per quadrant digit. -/
def createTileLevelPath (level x y : Nat) : Str :=
  let s := getMicrosoftVETile level x y
  if s = ['_'] then [] else tileLevelJoin s

/-- `getOutputTileName` from `downloader.js`: `name_zz_xxxxxxxx_yyyyyyyy` with
the zoom zero-padded to 2 digits (clamped to `"99"` above 99) and the
coordinates zero-padded to 8 digits (clamped to `"99999999"` at or above 10^8).
The `< 0` branches of the source are unreachable here because tile indices and
zoom levels are natural numbers. -/
def getOutputTileName (namePrefix : Str) (level i j : Nat) : Str :=
  let zoomPart : Str :=
    if level < 100 then
      (if level < 10 then '0' :: natToChars level else natToChars level)
    else ['9', '9']
  let xPart : Str :=
    if i < 100000000 then
      List.replicate (8 - (natToChars i).length) '0' ++ natToChars i
    else ['9', '9', '9', '9', '9', '9', '9', '9']
  let yPart : Str :=
    if j < 100000000 then
      List.replicate (8 - (natToChars j).length) '0' ++ natToChars j
    else ['9', '9', '9', '9', '9', '9', '9', '9']
  namePrefix ++ '_' :: zoomPart ++ '_' :: xPart ++ '_' :: yPart

/-- `path.join` of two already-normalized segments (POSIX): concatenation with
a single separator. -/
def pathJoin2 (a b : Str) : Str := a ++ '/' :: b

/-- A tile-map entry of the configuration (`TileMaps[i]`); `Subdomains` is the
already-split list of subdomain strings (`tileMap.Subdomains.split(',')`), empty
when the field is absent or falsy. -/
structure TileMapCfg where
  Name : Str
  Url : Str
  Subdomains : List Str
  Format : Str
deriving DecidableEq

/-- The application configuration as the downloader uses it. -/
structure Config where
  TileCacheFolder : Str
  TileMaps : List TileMapCfg
deriving DecidableEq

/-- `generateTilePath` from `downloader.js`: cache root / tile-map name /
level path (when non-empty) / `name_zz_xxxxxxxx_yyyyyyyy.format`. -/
def generateTilePath (cfg : Config) (tileMapName : Str) (x y z : Nat)
    (format : Str) : Str :=
  let tileLevelPath := createTileLevelPath z x y
  let tileFileName := getOutputTileName tileMapName z x y
  if tileLevelPath ≠ [] then
    pathJoin2 (pathJoin2 (pathJoin2 cfg.TileCacheFolder tileMapName) tileLevelPath)
      (tileFileName ++ '.' :: format)
  else
    pathJoin2 (pathJoin2 cfg.TileCacheFolder tileMapName)
      (tileFileName ++ '.' :: format)

theorem tileLevelJoin_ne_nil : ∀ s : Str, s ≠ [] → tileLevelJoin s ≠ [] := by
  intro s hs
  match s with
  | [c] => simp [tileLevelJoin]
  | c :: c' :: cs => simp [tileLevelJoin]

theorem tileLevelJoin_length : ∀ s : Str, s ≠ [] →
    (tileLevelJoin s).length = 2 * s.length - 1 := by
  intro s
  match s with
  | [] => intro h; exact absurd rfl h
  | [c] => intro _; rfl
  | c :: c' :: cs =>
    intro _
    have ih := tileLevelJoin_length (c' :: cs) (by simp)
    simp only [tileLevelJoin, List.length_cons] at ih ⊢
    omega

theorem tileLevelJoin_count_slash : ∀ s : Str, '/' ∉ s → s ≠ [] →
    (tileLevelJoin s).count '/' = s.length - 1 := by
  intro s
  match s with
  | [] => intro _ h; exact absurd rfl h
  | [c] =>
    intro hc _
    have : c ≠ '/' := fun h => hc (by simp [h])
    simp [tileLevelJoin, List.count_cons, this]
  | c :: c' :: cs =>
    intro hc _
    have hc1 : c ≠ '/' := fun h => hc (by simp [h])
    have ih := tileLevelJoin_count_slash (c' :: cs) (fun h => hc (by simp [List.mem_cons] at h ⊢; tauto)) (by simp)
    simp only [tileLevelJoin, List.count_cons, List.length_cons] at ih ⊢
    simp only [beq_iff_eq, eq_self_iff_true, if_true, hc1, if_false]
    omega

theorem tileLevelJoin_inj : ∀ s t : Str, s.length = t.length →
    tileLevelJoin s = tileLevelJoin t → s = t := by
  intro s
  match s with
  | [] =>
    intro t hl _
    exact (List.length_eq_zero.mp hl.symm).symm ▸ rfl
  | [c] =>
    intro t hl he
    match t with
    | [c'] =>
      simp only [tileLevelJoin] at he
      simp [List.cons.injEq] at he ⊢
      exact he
  | c :: c' :: cs =>
    intro t hl he
    match t with
    | d :: d' :: ds =>
      simp only [tileLevelJoin, List.cons.injEq] at he
      obtain ⟨hcd, _, hrest⟩ := he
      have hl' : (c' :: cs).length = (d' :: ds).length := by
        simp at hl ⊢; omega
      have := tileLevelJoin_inj (c' :: cs) (d' :: ds) hl' hrest
      rw [hcd, this]

theorem veTileDigits_no_slash (level : Nat) :
    ∀ x y, '/' ∉ veTileDigits level x y := by
  induction level with
  | zero => intro x y h; exact absurd h (List.not_mem_nil _)
  | succ level ih =>
    intro x y h
    simp only [veTileDigits, List.mem_append, List.mem_singleton] at h
    rcases h with h | h
    · exact ih _ _ h
    · exact (veDigit_ne x y).2 h.symm

theorem veTileDigits_ne_underscore (level x y : Nat) (h : level ≠ 0) :
    veTileDigits level x y ≠ ['_'] := by
  match level, h with
  | 1, _ =>
    simp only [veTileDigits, List.nil_append, ne_eq, List.cons.injEq]
    intro ⟨h1, _⟩
    exact (veDigit_ne x y).1 h1
  | n + 2, _ =>
    intro hcontra
    have := veTileDigits_length (n + 2) x y
    rw [hcontra] at this
    simp at this

/-- Two-bit quadrant codes are injective in the two parities. -/
theorem veDigit_inj_aux : ∀ a b a' b' : Fin 2,
    Char.ofNat (48 + (a.val + 2 * b.val)) = Char.ofNat (48 + (a'.val + 2 * b'.val)) →
    a = a' ∧ b = b' := by decide

theorem veDigit_inj (x y x' y' : Nat) (h : veDigit x y = veDigit x' y') :
    x % 2 = x' % 2 ∧ y % 2 = y' % 2 := by
  have hx : x % 2 < 2 := Nat.mod_lt _ (by decide)
  have hy : y % 2 < 2 := Nat.mod_lt _ (by decide)
  have hx' : x' % 2 < 2 := Nat.mod_lt _ (by decide)
  have hy' : y' % 2 < 2 := Nat.mod_lt _ (by decide)
  have := veDigit_inj_aux ⟨x % 2, hx⟩ ⟨y % 2, hy⟩ ⟨x' % 2, hx'⟩ ⟨y' % 2, hy'⟩ h
  exact ⟨congrArg Fin.val this.1, congrArg Fin.val this.2⟩

/-- The quadrant-digit string determines the coordinates within one zoom level. -/
theorem veTileDigits_inj : ∀ (level x y x' y' : Nat),
    x < 2 ^ level → y < 2 ^ level → x' < 2 ^ level → y' < 2 ^ level →
    veTileDigits level x y = veTileDigits level x' y' → x = x' ∧ y = y' := by
  intro level
  induction level with
  | zero =>
    intro x y x' y' hx hy hx' hy' _
    simp only [pow_zero, Nat.lt_one_iff] at hx hy hx' hy'
    omega
  | succ level ih =>
    intro x y x' y' hx hy hx' hy' he
    simp only [veTileDigits] at he
    have hlen : (veTileDigits level (x / 2) (y / 2)).length =
        (veTileDigits level (x' / 2) (y' / 2)).length := by
      rw [veTileDigits_length, veTileDigits_length]
    obtain ⟨hpre, hdig⟩ := List.append_inj he hlen
    have hdig' : veDigit x y = veDigit x' y' := by simpa using hdig
    have hd := veDigit_inj _ _ _ _ hdig'
    have hdiv : x / 2 < 2 ^ level ∧ y / 2 < 2 ^ level ∧
        x' / 2 < 2 ^ level ∧ y' / 2 < 2 ^ level := by
      have := Nat.pow_succ 2 level
      refine ⟨?_, ?_, ?_, ?_⟩ <;> omega
    have := ih (x / 2) (y / 2) (x' / 2) (y' / 2) hdiv.1 hdiv.2.1 hdiv.2.2.1 hdiv.2.2.2 hpre
    omega

theorem veTileDigits_ne_nil (z x y : Nat) (h : z ≠ 0) : veTileDigits z x y ≠ [] := by
  intro hnil
  have := veTileDigits_length z x y
  rw [hnil] at this
  exact h this.symm

theorem createTileLevelPath_of_ne (z x y : Nat) (h : z ≠ 0) :
    createTileLevelPath z x y = tileLevelJoin (veTileDigits z x y) := by
  simp only [createTileLevelPath, getMicrosoftVETile, if_neg h]
  rw [if_neg (veTileDigits_ne_underscore z x y h)]

theorem getOutputTileName_count_slash (namePrefix : Str) (level i j : Nat) :
    (getOutputTileName namePrefix level i j).count '/' = namePrefix.count '/' := by
  have hz : ((if level < 100 then
      (if level < 10 then '0' :: natToChars level else natToChars level)
      else ['9', '9']) : Str).count '/' = 0 := by
    split
    · split
      · simp [List.count_cons, natToChars_count_slash]
      · exact natToChars_count_slash level
    · decide
  have hco : ∀ n : Nat, ((if n < 100000000 then
      List.replicate (8 - (natToChars n).length) '0' ++ natToChars n
      else ['9', '9', '9', '9', '9', '9', '9', '9']) : Str).count '/' = 0 := by
    intro n
    split
    · rw [List.count_append, natToChars_count_slash, List.count_replicate]
      simp
    · decide
  simp only [getOutputTileName, List.count_append, List.count_cons]
  rw [hz, hco i, hco j]
  simp

theorem generateTilePath_eq_of_ne (cfg : Config) (name format : Str)
    (z x y : Nat) (h : z ≠ 0) :
    generateTilePath cfg name x y z format =
      pathJoin2 (pathJoin2 (pathJoin2 cfg.TileCacheFolder name)
        (tileLevelJoin (veTileDigits z x y)))
        (getOutputTileName name z x y ++ '.' :: format) := by
  have hnn : tileLevelJoin (veTileDigits z x y) ≠ [] :=
    tileLevelJoin_ne_nil _ (veTileDigits_ne_nil z x y h)
  simp only [generateTilePath, createTileLevelPath_of_ne z x y h]
  rw [if_pos hnn]

theorem generateTilePath_eq_zero (cfg : Config) (name format : Str) (x y : Nat) :
    generateTilePath cfg name x y 0 format =
      pathJoin2 (pathJoin2 cfg.TileCacheFolder name)
        (getOutputTileName name 0 x y ++ '.' :: format) := by
  have h0 : createTileLevelPath 0 x y = [] := by
    simp [createTileLevelPath, getMicrosoftVETile]
  simp [generateTilePath, h0]

theorem generateTilePath_count_slash (cfg : Config) (name : Str) (x y z : Nat)
    (format : Str) :
    (generateTilePath cfg name x y z format).count '/' =
      cfg.TileCacheFolder.count '/' + name.count '/' + name.count '/' +
        format.count '/' + 2 + z := by
  rcases Nat.eq_zero_or_pos z with hz | hz
  · subst hz
    rw [generateTilePath_eq_zero]
    simp only [pathJoin2, List.count_append, List.count_cons,
      getOutputTileName_count_slash]
    simp
    omega
  · have hz0 : z ≠ 0 := Nat.pos_iff_ne_zero.mp hz
    rw [generateTilePath_eq_of_ne cfg name format z x y hz0]
    have hlvl : (tileLevelJoin (veTileDigits z x y)).count '/' = z - 1 := by
      rw [tileLevelJoin_count_slash _ (veTileDigits_no_slash z x y)
        (veTileDigits_ne_nil z x y hz0), veTileDigits_length]
    simp only [pathJoin2, List.count_append, List.count_cons, hlvl,
      getOutputTileName_count_slash]
    simp
    omega

/-- C7: `generateTilePath` is a pure function of its arguments (it is modelled
as a function, so identical inputs yield the identical path by definition), and
for a fixed tile-map name and format, two distinct tile coordinates in the
slippy-map range `0 ≤ x, y < 2^z` always yield distinct path strings. -/
theorem generateTilePath_injective (cfg : Config) (name format : Str)
    (z x y z' x' y' : Nat) (hx : x < 2 ^ z) (hy : y < 2 ^ z)
    (hx' : x' < 2 ^ z') (hy' : y' < 2 ^ z')
    (hne : (z, x, y) ≠ (z', x', y')) :
    generateTilePath cfg name x y z format ≠ generateTilePath cfg name x' y' z' format := by
  intro he
  have hcount := congrArg (List.count '/') he
  rw [generateTilePath_count_slash, generateTilePath_count_slash] at hcount
  have hzz : z = z' := by omega
  subst hzz
  rcases Nat.eq_zero_or_pos z with h0 | hpos
  · subst h0
    simp only [pow_zero, Nat.lt_one_iff] at hx hy hx' hy'
    exact hne (by rw [hx, hy, hx', hy'])
  · have hz0 : z ≠ 0 := Nat.pos_iff_ne_zero.mp hpos
    rw [generateTilePath_eq_of_ne cfg name format z x y hz0,
      generateTilePath_eq_of_ne cfg name format z x' y' hz0] at he
    simp only [pathJoin2, List.append_assoc, List.cons_append] at he
    have he1 := List.append_cancel_left he
    simp only [List.cons.injEq, true_and] at he1
    have he2 := List.append_cancel_left he1
    simp only [List.cons.injEq, true_and] at he2
    have hlen : (tileLevelJoin (veTileDigits z x y)).length =
        (tileLevelJoin (veTileDigits z x' y')).length := by
      rw [tileLevelJoin_length _ (veTileDigits_ne_nil z x y hz0),
        tileLevelJoin_length _ (veTileDigits_ne_nil z x' y' hz0),
        veTileDigits_length, veTileDigits_length]
    obtain ⟨hL, _⟩ := List.append_inj he2 hlen
    have hdig := tileLevelJoin_inj _ _
      (by rw [veTileDigits_length, veTileDigits_length]) hL
    obtain ⟨hxx, hyy⟩ := veTileDigits_inj z x y x' y' hx hy hx' hy' hdig
    exact hne (by rw [hxx, hyy])

/-- Witness for `generateTilePath_injective` at a concrete input: tiles
`(z, x, y) = (1, 0, 0)` and `(1, 1, 0)` of the same tile map get different
cache paths. -/
theorem generateTilePath_injective_witness :
    (0 : Nat) < 2 ^ 1 ∧ (1 : Nat) < 2 ^ 1 ∧
      generateTilePath ⟨[], [⟨['o'], [], [], ['p']⟩]⟩ ['o'] 0 0 1 ['p'] ≠
        generateTilePath ⟨[], [⟨['o'], [], [], ['p']⟩]⟩ ['o'] 1 0 1 ['p'] :=
  ⟨by decide, by decide,
    generateTilePath_injective ⟨[], [⟨['o'], [], [], ['p']⟩]⟩ ['o'] ['p'] 1 0 0 1 1 0
      (by decide) (by decide) (by decide) (by decide) (by decide)⟩

/-- JavaScript `String.prototype.includes`. -/
def containsSub (s pat : Str) : Bool :=
  s.tails.any (fun t => pat.isPrefixOf t)

/-- JavaScript `String.prototype.replace` with a string pattern: replaces only
the first occurrence of `pat`, and returns the string unchanged when `pat`
does not occur. -/
def replaceFirst : Str → Str → Str → Str
  | [], pat, rep => if pat.isPrefixOf ([] : Str) then rep else []
  | c :: cs, pat, rep =>
    if pat.isPrefixOf (c :: cs) then rep ++ (c :: cs).drop pat.length
    else c :: replaceFirst cs pat rep

/-- `generateTileUrl` from `downloader.js`: substitute the first occurrence of
each of the placeholders, then, when a subdomain list is configured and the
intermediate URL still contains the `s` placeholder, substitute its first
occurrence by the randomly chosen subdomain.  `Math.random`'s choice
`Math.floor(Math.random() * subdomains.length)` is modelled by the explicit
in-range index `pick % length`. -/
def generateTileUrl (tileMap : TileMapCfg) (x y z : Nat) (pick : Nat) : Str :=
  let url := tileMap.Url
  let url := replaceFirst url ("{x}".data) (natToChars x)
  let url := replaceFirst url ("{y}".data) (natToChars y)
  let url := replaceFirst url ("{z}".data) (natToChars z)
  if tileMap.Subdomains ≠ [] ∧ containsSub url ("{s}".data) then
    replaceFirst url ("{s}".data)
      (tileMap.Subdomains.getD (pick % tileMap.Subdomains.length) [])
  else url

/-- The statistics record of the downloader (`this.stats`). -/
structure Stats where
  calculatedTiles : Nat
  downloadedTiles : Nat
  failedTiles : Nat
  skippedTiles : Nat
  inProgress : Nat
  totalTiles : Nat
deriving DecidableEq

/-- A failed-download record, as pushed to `this.failedDownloads`. -/
structure DTask where
  tileMapName : Str
  x : Nat
  y : Nat
  z : Nat
deriving DecidableEq

/-- The mutable state of a `TileDownloader` instance. -/
structure DState where
  stats : Stats
  failedDownloads : List DTask
deriving DecidableEq

/-- `resetStats` from `downloader.js`: zeroes every statistics counter and
clears the failed-download list. -/
def resetStats (_st : DState) : DState := ⟨⟨0, 0, 0, 0, 0, 0⟩, []⟩

/-- `getTileMapByName` from `index.js`: the first tile map with the given
name; the JS code throws a `ConfigurationError` when none is found, modelled
as `none`. -/
def getTileMapByName (cfg : Config) (name : Str) : Option TileMapCfg :=
  cfg.TileMaps.find? (fun tm => tm.Name == name)

inductive TileOutcome
  | configError
  | skipped
  | downloaded
  | failed
deriving DecidableEq

/-- The observable result of one `downloadTile` call: outcome, downloader
state, filesystem (the set of existing paths), HTTP requests issued, files
written. -/
structure StepResult where
  outcome : TileOutcome
  state : DState
  fs : List Str
  httpCalls : List Str
  writes : List Str
deriving DecidableEq

/-- `downloadTile` from `downloader.js`.  The filesystem is an explicit list
of existing paths and the HTTP client an oracle (`http url = true` when the
GET and the subsequent write succeed, `false` for any network or storage
failure).  The unknown-tile-map throw happens before the `try` block and
before the `inProgress` increment, so it leaves state, filesystem and failure
list untouched and issues no request. -/
def downloadTile (cfg : Config) (http : Str → Bool) (pick : Nat)
    (st : DState) (fs : List Str) (tileMapName : Str) (x y z : Nat) : StepResult :=
  match getTileMapByName cfg tileMapName with
  | none => ⟨.configError, st, fs, [], []⟩
  | some tileMap =>
    let url := generateTileUrl tileMap x y z pick
    let filePath := generateTilePath cfg tileMapName x y z tileMap.Format
    let st := { st with stats := { st.stats with inProgress := st.stats.inProgress + 1 } }
    if fs.contains filePath then
      ⟨.skipped,
        { st with stats := { st.stats with
            skippedTiles := st.stats.skippedTiles + 1,
            inProgress := st.stats.inProgress - 1 } },
        fs, [], []⟩
    else if http url then
      ⟨.downloaded,
        { st with stats := { st.stats with
            downloadedTiles := st.stats.downloadedTiles + 1,
            inProgress := st.stats.inProgress - 1 } },
        filePath :: fs, [url], [filePath]⟩
    else
      ⟨.failed,
        { st with
          stats := { st.stats with
            failedTiles := st.stats.failedTiles + 1,
            inProgress := st.stats.inProgress - 1 }
          failedDownloads := st.failedDownloads ++ [⟨tileMapName, x, y, z⟩] },
        fs, [url], []⟩

/-- Accumulated observable effects of an operation. -/
structure RunResult where
  state : DState
  fs : List Str
  httpCalls : List Str
  writes : List Str
deriving DecidableEq

/-- Drain the queued fetch tasks in order (the sequential execution of the
`PQueue`). -/
def runTasks (cfg : Config) (http : Str → Bool) (pick : Nat) :
    DState → List Str → List DTask → RunResult
  | st, fs, [] => ⟨st, fs, [], []⟩
  | st, fs, t :: ts =>
    let r := downloadTile cfg http pick st fs t.tileMapName t.x t.y t.z
    let rest := runTasks cfg http pick r.state r.fs ts
    ⟨rest.state, rest.fs, r.httpCalls ++ rest.httpCalls, r.writes ++ rest.writes⟩

/-- A tile coordinate as produced by the geometry code (`{x, y, z}`). -/
structure TileXYZ where
  x : Nat
  y : Nat
  z : Nat
deriving DecidableEq

/-- The body shared by `downloadTilesForBoundingBox` and
`downloadTilesForGeoJSON` once the tile list has been computed: reset the
statistics and failure list, set `calculatedTiles = totalTiles = tiles.length`,
enqueue one `downloadTile` task per tile and drain the queue. -/
def downloadTiles (cfg : Config) (http : Str → Bool) (pick : Nat)
    (tileMapName : Str) (tiles : List TileXYZ) (st : DState) (fs : List Str) :
    RunResult :=
  let st := resetStats st
  let st := { st with stats := { st.stats with
      calculatedTiles := tiles.length, totalTiles := tiles.length } }
  runTasks cfg http pick st fs (tiles.map (fun t => ⟨tileMapName, t.x, t.y, t.z⟩))

/-- `retryFailedDownloads` from `downloader.js`, in source order: the guard on
an empty failure list, then `resetStats()` — which already clears
`this.failedDownloads` — and only then the copy of `this.failedDownloads`
into the local `failedDownloads` that is re-enqueued. -/
def retryFailedDownloads (cfg : Config) (http : Str → Bool) (pick : Nat)
    (st : DState) (fs : List Str) : RunResult :=
  if st.failedDownloads.length = 0 then ⟨st, fs, [], []⟩
  else
    let st := resetStats st
    let failedDownloads := st.failedDownloads
    let st := { st with failedDownloads := [] }
    let st := { st with stats := { st.stats with
        calculatedTiles := failedDownloads.length,
        totalTiles := failedDownloads.length } }
    runTasks cfg http pick st fs failedDownloads

/-- C10: `generateTileUrl` substitutes only the first occurrence of each
placeholder.  On the template `"{x}{x}-{y}{z}{s}{s}"` with subdomains
`["a", "b"]` and `(x, y, z) = (1, 2, 3)`, the second `x` placeholder and the
second `s` placeholder remain verbatim in the returned URL. -/
theorem generateTileUrl_first_occurrence_only :
    generateTileUrl ⟨['o'], "{x}{x}-{y}{z}{s}{s}".data, ["a".data, "b".data], ['p']⟩
        1 2 3 0 = "1{x}-23a{s}".data := by decide

/-- C8: when the tile-map name is absent from the configuration,
`downloadTile` fails immediately with a configuration error: no statistics
counter changes, nothing is appended to the failure list, and no HTTP request
or filesystem write happens. -/
theorem downloadTile_configError (cfg : Config) (http : Str → Bool) (pick : Nat)
    (st : DState) (fs : List Str) (tileMapName : Str) (x y z : Nat)
    (h : getTileMapByName cfg tileMapName = none) :
    downloadTile cfg http pick st fs tileMapName x y z =
      ⟨.configError, st, fs, [], []⟩ := by
  simp [downloadTile, h]

/-- Witness for `downloadTile_configError`: a configuration knowing only the
tile map `"o"`, asked for the tile map `"q"`. -/
theorem downloadTile_configError_witness :
    getTileMapByName ⟨[], [⟨['o'], [], [], ['p']⟩]⟩ ['q'] = none ∧
      downloadTile ⟨[], [⟨['o'], [], [], ['p']⟩]⟩ (fun _ => true) 0
          ⟨⟨1, 1, 1, 1, 1, 1⟩, []⟩ [] ['q'] 0 0 0 =
        ⟨.configError, ⟨⟨1, 1, 1, 1, 1, 1⟩, []⟩, [], [], []⟩ :=
  ⟨by decide,
    downloadTile_configError ⟨[], [⟨['o'], [], [], ['p']⟩]⟩ (fun _ => true) 0
      ⟨⟨1, 1, 1, 1, 1, 1⟩, []⟩ [] ['q'] 0 0 0 (by decide)⟩

/-- C1 (the code contradicts the claim): with exactly one failed download
recorded, `retryFailedDownloads` calls `resetStats()` — which clears
`this.failedDownloads` — BEFORE copying the failure list, so the copied list
is empty: it sets `totalTiles = calculatedTiles = 0`, enqueues nothing,
issues no HTTP request, and returns all-zero statistics, instead of the
claimed `totalTiles = calculatedTiles = 1` with the failed task re-enqueued. -/
theorem retryFailedDownloads_drops_failures :
    retryFailedDownloads ⟨[], [⟨['o'], [], [], ['p']⟩]⟩ (fun _ => true) 0
        ⟨⟨5, 3, 1, 1, 0, 5⟩, [⟨['o'], 1, 2, 3⟩]⟩ [] =
      ⟨⟨⟨0, 0, 0, 0, 0, 0⟩, []⟩, [], [], []⟩ := by decide

/-- C2 (amended): when the failure list is empty, `retryFailedDownloads`
returns the CURRENT statistics unchanged (which are all-zero only when no
prior operation recorded anything), enqueues no fetch task, issues no HTTP
request, and changes no statistics counter. -/
theorem retryFailedDownloads_empty (cfg : Config) (http : Str → Bool)
    (pick : Nat) (st : DState) (fs : List Str) (h : st.failedDownloads = []) :
    retryFailedDownloads cfg http pick st fs = ⟨st, fs, [], []⟩ := by
  simp [retryFailedDownloads, h]

/-- Witness for `retryFailedDownloads_empty` at a concrete state. -/
theorem retryFailedDownloads_empty_witness :
    (DState.failedDownloads ⟨⟨1, 1, 0, 0, 0, 1⟩, []⟩ = []) ∧
      retryFailedDownloads ⟨[], [⟨['o'], [], [], ['p']⟩]⟩ (fun _ => true) 0
          ⟨⟨1, 1, 0, 0, 0, 1⟩, []⟩ [] = ⟨⟨⟨1, 1, 0, 0, 0, 1⟩, []⟩, [], [], []⟩ :=
  ⟨rfl, retryFailedDownloads_empty ⟨[], [⟨['o'], [], [], ['p']⟩]⟩ (fun _ => true) 0
    ⟨⟨1, 1, 0, 0, 0, 1⟩, []⟩ [] rfl⟩

/-- C2 (counterexample to the claim as stated): after an operation in which
the single tile downloaded successfully, the failure list is empty but the
statistics are not all-zero; calling `retryFailedDownloads` then returns
statistics with `downloadedTiles = 1`, not all-zero statistics. -/
theorem retryFailedDownloads_empty_not_all_zero :
    (downloadTiles ⟨[], [⟨['o'], [], [], ['p']⟩]⟩ (fun _ => true) 0 ['o']
        [⟨0, 0, 0⟩] ⟨⟨0, 0, 0, 0, 0, 0⟩, []⟩ []).state.failedDownloads = [] ∧
      (retryFailedDownloads ⟨[], [⟨['o'], [], [], ['p']⟩]⟩ (fun _ => true) 0
          (downloadTiles ⟨[], [⟨['o'], [], [], ['p']⟩]⟩ (fun _ => true) 0 ['o']
            [⟨0, 0, 0⟩] ⟨⟨0, 0, 0, 0, 0, 0⟩, []⟩ []).state
          (downloadTiles ⟨[], [⟨['o'], [], [], ['p']⟩]⟩ (fun _ => true) 0 ['o']
            [⟨0, 0, 0⟩] ⟨⟨0, 0, 0, 0, 0, 0⟩, []⟩ []).fs).state.stats.downloadedTiles
        = 1 := by decide

theorem downloadTile_skip (cfg : Config) (http : Str → Bool) (pick : Nat)
    (st : DState) (fs : List Str) (name : Str) (x y z : Nat) (tm : TileMapCfg)
    (htm : getTileMapByName cfg name = some tm)
    (hfs : fs.contains (generateTilePath cfg name x y z tm.Format) = true) :
    downloadTile cfg http pick st fs name x y z =
      ⟨.skipped, { st with stats := { st.stats with
          skippedTiles := st.stats.skippedTiles + 1 } }, fs, [], []⟩ := by
  have hfs' : generateTilePath cfg name x y z tm.Format ∈ fs := by simpa using hfs
  simp [downloadTile, htm, hfs']

theorem downloadTile_fs_mono (cfg : Config) (http : Str → Bool) (pick : Nat)
    (st : DState) (fs : List Str) (name : Str) (x y z : Nat) (p : Str)
    (hp : fs.contains p = true) :
    (downloadTile cfg http pick st fs name x y z).fs.contains p = true := by
  simp only [downloadTile]
  cases hm : getTileMapByName cfg name with
  | none => exact hp
  | some tm =>
    simp only
    split
    · exact hp
    · split
      · have hp' : p ∈ fs := by simpa using hp
        simp [hp']
      · exact hp

theorem downloadTile_failed_mono (cfg : Config) (http : Str → Bool) (pick : Nat)
    (st : DState) (fs : List Str) (name : Str) (x y z : Nat) :
    st.stats.failedTiles ≤
      (downloadTile cfg http pick st fs name x y z).state.stats.failedTiles := by
  simp only [downloadTile]
  cases hm : getTileMapByName cfg name with
  | none => exact Nat.le_refl _
  | some tm =>
    simp only
    split
    · exact Nat.le_refl _
    · split
      · exact Nat.le_refl _
      · exact Nat.le_succ _

theorem runTasks_failed_mono (cfg : Config) (http : Str → Bool) (pick : Nat) :
    ∀ (ts : List DTask) (st : DState) (fs : List Str),
      st.stats.failedTiles ≤
        (runTasks cfg http pick st fs ts).state.stats.failedTiles := by
  intro ts
  induction ts with
  | nil => intro st fs; exact Nat.le_refl _
  | cons t ts ih =>
    intro st fs
    simp only [runTasks]
    exact Nat.le_trans (downloadTile_failed_mono cfg http pick st fs _ _ _ _) (ih _ _)

theorem runTasks_fs_mono (cfg : Config) (http : Str → Bool) (pick : Nat) :
    ∀ (ts : List DTask) (st : DState) (fs : List Str) (p : Str),
      fs.contains p = true →
      (runTasks cfg http pick st fs ts).fs.contains p = true := by
  intro ts
  induction ts with
  | nil => intro st fs p hp; exact hp
  | cons t ts ih =>
    intro st fs p hp
    simp only [runTasks]
    exact ih _ _ _ (downloadTile_fs_mono cfg http pick st fs _ _ _ _ p hp)

theorem downloadTile_path_present (cfg : Config) (http : Str → Bool) (pick : Nat)
    (st : DState) (fs : List Str) (name : Str) (x y z : Nat) (tm : TileMapCfg)
    (htm : getTileMapByName cfg name = some tm)
    (hnf : (downloadTile cfg http pick st fs name x y z).state.stats.failedTiles =
      st.stats.failedTiles) :
    (downloadTile cfg http pick st fs name x y z).fs.contains
      (generateTilePath cfg name x y z tm.Format) = true := by
  by_cases hc : fs.contains (generateTilePath cfg name x y z tm.Format) = true
  · simp only [downloadTile, htm]
    rw [if_pos hc]
    exact hc
  · by_cases hh : http (generateTileUrl tm x y z pick) = true
    · simp only [downloadTile, htm]
      rw [if_neg hc, if_pos hh]
      simp
    · exfalso
      simp only [downloadTile, htm] at hnf
      rw [if_neg hc, if_neg hh] at hnf
      simp only at hnf
      omega

/-- If a run of fetch tasks (whose tile-map names all resolve) ends with no
new failures, then the cache file of every task exists afterwards. -/
theorem runTasks_populates (cfg : Config) (http : Str → Bool) (pick : Nat) :
    ∀ (ts : List DTask) (st : DState) (fs : List Str),
      (∀ t ∈ ts, (getTileMapByName cfg t.tileMapName).isSome) →
      (runTasks cfg http pick st fs ts).state.stats.failedTiles =
        st.stats.failedTiles →
      ∀ t ∈ ts, ∃ tm, getTileMapByName cfg t.tileMapName = some tm ∧
        (runTasks cfg http pick st fs ts).fs.contains
          (generateTilePath cfg t.tileMapName t.x t.y t.z tm.Format) = true := by
  intro ts
  induction ts with
  | nil => intro st fs _ _ t ht; exact absurd ht (List.not_mem_nil _)
  | cons t0 ts ih =>
    intro st fs hsome hnf t ht
    obtain ⟨tm0, htm0⟩ := Option.isSome_iff_exists.mp (hsome t0 (List.mem_cons_self _ _))
    have h1 := downloadTile_failed_mono cfg http pick st fs t0.tileMapName t0.x t0.y t0.z
    have h2 := runTasks_failed_mono cfg http pick ts
      (downloadTile cfg http pick st fs t0.tileMapName t0.x t0.y t0.z).state
      (downloadTile cfg http pick st fs t0.tileMapName t0.x t0.y t0.z).fs
    simp only [runTasks] at hnf ⊢
    have hdt : (downloadTile cfg http pick st fs t0.tileMapName t0.x t0.y t0.z).state.stats.failedTiles =
        st.stats.failedTiles := by omega
    rcases List.mem_cons.mp ht with rfl | ht
    · exact ⟨tm0, htm0, runTasks_fs_mono cfg http pick ts _ _ _
        (downloadTile_path_present cfg http pick st fs t.tileMapName t.x t.y t.z tm0 htm0 hdt)⟩
    · exact ih _ _ (fun u hu => hsome u (List.mem_cons_of_mem _ hu)) (by omega) t ht

theorem runTasks_all_skip (cfg : Config) (http : Str → Bool) (pick : Nat) :
    ∀ (ts : List DTask) (st : DState) (fs : List Str),
      (∀ t ∈ ts, ∃ tm, getTileMapByName cfg t.tileMapName = some tm ∧
          fs.contains (generateTilePath cfg t.tileMapName t.x t.y t.z tm.Format) = true) →
      runTasks cfg http pick st fs ts =
        ⟨{ st with stats := { st.stats with
            skippedTiles := st.stats.skippedTiles + ts.length } }, fs, [], []⟩ := by
  intro ts
  induction ts with
  | nil => intro st fs _; simp [runTasks]
  | cons t ts ih =>
    intro st fs hall
    obtain ⟨tm, htm, hfs⟩ := hall t (List.mem_cons_self _ _)
    simp only [runTasks, downloadTile_skip cfg http pick st fs t.tileMapName t.x t.y t.z tm htm hfs]
    rw [ih _ fs (fun u hu => hall u (List.mem_cons_of_mem _ hu))]
    have harith : st.stats.skippedTiles + 1 + ts.length =
        st.stats.skippedTiles + (t :: ts).length := by
      simp only [List.length_cons]
      omega
    rw [harith]
    simp

/-- C4: (a) when the cache file of a tile already exists, its fetch task
increments `skippedTiles` (not `downloadedTiles`), issues no HTTP request and
writes no file; (b) consequently a second `downloadRegion` run over a cache
fully populated by a first run with no failures downloads nothing: it yields
`downloadedTiles = 0` and `skippedTiles = totalTiles`, with no HTTP request
and no write. -/
theorem downloadTile_cached_idempotent :
    (∀ (cfg : Config) (http : Str → Bool) (pick : Nat) (st : DState)
        (fs : List Str) (name : Str) (x y z : Nat) (tm : TileMapCfg),
        getTileMapByName cfg name = some tm →
        fs.contains (generateTilePath cfg name x y z tm.Format) = true →
        downloadTile cfg http pick st fs name x y z =
          ⟨.skipped, { st with stats := { st.stats with
              skippedTiles := st.stats.skippedTiles + 1 } }, fs, [], []⟩) ∧
    (∀ (cfg : Config) (http http2 : Str → Bool) (pick pick2 : Nat) (name : Str)
        (tiles : List TileXYZ) (st0 : DState) (fs0 : List Str) (tm : TileMapCfg),
        getTileMapByName cfg name = some tm →
        (downloadTiles cfg http pick name tiles st0 fs0).state.stats.failedTiles = 0 →
        (downloadTiles cfg http2 pick2 name tiles
            (downloadTiles cfg http pick name tiles st0 fs0).state
            (downloadTiles cfg http pick name tiles st0 fs0).fs).state.stats.downloadedTiles
            = 0 ∧
          (downloadTiles cfg http2 pick2 name tiles
              (downloadTiles cfg http pick name tiles st0 fs0).state
              (downloadTiles cfg http pick name tiles st0 fs0).fs).state.stats.skippedTiles
              =
            (downloadTiles cfg http2 pick2 name tiles
                (downloadTiles cfg http pick name tiles st0 fs0).state
                (downloadTiles cfg http pick name tiles st0 fs0).fs).state.stats.totalTiles ∧
          (downloadTiles cfg http2 pick2 name tiles
              (downloadTiles cfg http pick name tiles st0 fs0).state
              (downloadTiles cfg http pick name tiles st0 fs0).fs).httpCalls = [] ∧
          (downloadTiles cfg http2 pick2 name tiles
              (downloadTiles cfg http pick name tiles st0 fs0).state
              (downloadTiles cfg http pick name tiles st0 fs0).fs).writes = []) := by
  constructor
  · exact fun cfg http pick st fs name x y z tm htm hfs =>
      downloadTile_skip cfg http pick st fs name x y z tm htm hfs
  · intro cfg http http2 pick pick2 name tiles st0 fs0 tm htm hfail
    have hsome : ∀ t ∈ tiles.map (fun t : TileXYZ => (⟨name, t.x, t.y, t.z⟩ : DTask)),
        (getTileMapByName cfg t.tileMapName).isSome := by
      intro t ht
      obtain ⟨u, _, rfl⟩ := List.mem_map.mp ht
      simp [htm]
    have hst1 : downloadTiles cfg http pick name tiles st0 fs0 =
        runTasks cfg http pick ⟨⟨tiles.length, 0, 0, 0, 0, tiles.length⟩, []⟩ fs0
          (tiles.map (fun t : TileXYZ => (⟨name, t.x, t.y, t.z⟩ : DTask))) := rfl
    have hfail0 : (runTasks cfg http pick ⟨⟨tiles.length, 0, 0, 0, 0, tiles.length⟩, []⟩ fs0
        (tiles.map (fun t : TileXYZ => (⟨name, t.x, t.y, t.z⟩ : DTask)))).state.stats.failedTiles
        = (Stats.failedTiles ⟨tiles.length, 0, 0, 0, 0, tiles.length⟩) := by
      rw [← hst1]
      exact hfail
    have hpop := runTasks_populates cfg http pick
      (tiles.map (fun t : TileXYZ => (⟨name, t.x, t.y, t.z⟩ : DTask)))
      ⟨⟨tiles.length, 0, 0, 0, 0, tiles.length⟩, []⟩ fs0 hsome hfail0
    have hall : ∀ t ∈ tiles.map (fun t : TileXYZ => (⟨name, t.x, t.y, t.z⟩ : DTask)),
        ∃ tm', getTileMapByName cfg t.tileMapName = some tm' ∧
          (downloadTiles cfg http pick name tiles st0 fs0).fs.contains
            (generateTilePath cfg t.tileMapName t.x t.y t.z tm'.Format) = true := by
      intro t ht
      obtain ⟨tm', h1, h2⟩ := hpop t ht
      exact ⟨tm', h1, by rw [hst1]; exact h2⟩
    have hst2 : downloadTiles cfg http2 pick2 name tiles
        (downloadTiles cfg http pick name tiles st0 fs0).state
        (downloadTiles cfg http pick name tiles st0 fs0).fs =
        runTasks cfg http2 pick2 ⟨⟨tiles.length, 0, 0, 0, 0, tiles.length⟩, []⟩
          (downloadTiles cfg http pick name tiles st0 fs0).fs
          (tiles.map (fun t : TileXYZ => (⟨name, t.x, t.y, t.z⟩ : DTask))) := rfl
    rw [hst2, runTasks_all_skip cfg http2 pick2 _ _ _ hall]
    simp

/-- Witness for `downloadTile_cached_idempotent` at concrete inputs: a
one-tile-map configuration, the tile `(0, 0, 0)` already cached (part a), and
a first run with an always-successful fetch followed by a second run
(part b). -/
theorem downloadTile_cached_idempotent_witness :
    (getTileMapByName ⟨[], [⟨['o'], [], [], ['p']⟩]⟩ ['o'] = some ⟨['o'], [], [], ['p']⟩ ∧
      downloadTile ⟨[], [⟨['o'], [], [], ['p']⟩]⟩ (fun _ => true) 0 ⟨⟨1, 0, 0, 0, 0, 1⟩, []⟩
          [generateTilePath ⟨[], [⟨['o'], [], [], ['p']⟩]⟩ ['o'] 0 0 0 ['p']] ['o'] 0 0 0 =
        ⟨.skipped, ⟨⟨1, 0, 0, 1, 0, 1⟩, []⟩,
          [generateTilePath ⟨[], [⟨['o'], [], [], ['p']⟩]⟩ ['o'] 0 0 0 ['p']], [], []⟩) ∧
      ((downloadTiles ⟨[], [⟨['o'], [], [], ['p']⟩]⟩ (fun _ => true) 0 ['o'] [⟨0, 0, 0⟩]
          (downloadTiles ⟨[], [⟨['o'], [], [], ['p']⟩]⟩ (fun _ => true) 0 ['o'] [⟨0, 0, 0⟩]
            ⟨⟨0, 0, 0, 0, 0, 0⟩, []⟩ []).state
          (downloadTiles ⟨[], [⟨['o'], [], [], ['p']⟩]⟩ (fun _ => true) 0 ['o'] [⟨0, 0, 0⟩]
            ⟨⟨0, 0, 0, 0, 0, 0⟩, []⟩ []).fs).state.stats.downloadedTiles = 0 ∧
        (downloadTiles ⟨[], [⟨['o'], [], [], ['p']⟩]⟩ (fun _ => true) 0 ['o'] [⟨0, 0, 0⟩]
          (downloadTiles ⟨[], [⟨['o'], [], [], ['p']⟩]⟩ (fun _ => true) 0 ['o'] [⟨0, 0, 0⟩]
            ⟨⟨0, 0, 0, 0, 0, 0⟩, []⟩ []).state
          (downloadTiles ⟨[], [⟨['o'], [], [], ['p']⟩]⟩ (fun _ => true) 0 ['o'] [⟨0, 0, 0⟩]
            ⟨⟨0, 0, 0, 0, 0, 0⟩, []⟩ []).fs).state.stats.skippedTiles =
          (downloadTiles ⟨[], [⟨['o'], [], [], ['p']⟩]⟩ (fun _ => true) 0 ['o'] [⟨0, 0, 0⟩]
            (downloadTiles ⟨[], [⟨['o'], [], [], ['p']⟩]⟩ (fun _ => true) 0 ['o'] [⟨0, 0, 0⟩]
              ⟨⟨0, 0, 0, 0, 0, 0⟩, []⟩ []).state
            (downloadTiles ⟨[], [⟨['o'], [], [], ['p']⟩]⟩ (fun _ => true) 0 ['o'] [⟨0, 0, 0⟩]
              ⟨⟨0, 0, 0, 0, 0, 0⟩, []⟩ []).fs).state.stats.totalTiles) :=
  ⟨⟨by decide,
    by
      have h := downloadTile_cached_idempotent.1 ⟨[], [⟨['o'], [], [], ['p']⟩]⟩
        (fun _ => true) 0 ⟨⟨1, 0, 0, 0, 0, 1⟩, []⟩
        [generateTilePath ⟨[], [⟨['o'], [], [], ['p']⟩]⟩ ['o'] 0 0 0 ['p']] ['o'] 0 0 0
        ⟨['o'], [], [], ['p']⟩ (by decide) (by decide)
      exact h.trans (by decide)⟩,
    by
      have h := downloadTile_cached_idempotent.2 ⟨[], [⟨['o'], [], [], ['p']⟩]⟩
        (fun _ => true) (fun _ => true) 0 0 ['o'] [⟨0, 0, 0⟩] ⟨⟨0, 0, 0, 0, 0, 0⟩, []⟩ []
        ⟨['o'], [], [], ['p']⟩ (by decide) (by decide)
      exact ⟨h.1, h.2.1⟩⟩

/-- The state of one operation (`downloadTilesForBoundingBox`,
`downloadTilesForGeoJSON`, or a retry pass) between the atomic mutation
segments of its tasks: the statistics plus the number of enqueued tasks not
yet started.  `downloadTile` touches the shared statistics in two atomic
segments — the `inProgress` increment before its first `await`, and the
terminal counter update — so a concurrent operation is an interleaving of
these steps. -/
structure OpState where
  stats : Stats
  pending : Nat
deriving DecidableEq

/-- The operation state right after `resetStats()` and
`calculatedTiles := totalTiles := n`, with all `n` tasks enqueued. -/
def opInit (n : Nat) : OpState := ⟨⟨n, 0, 0, 0, 0, n⟩, n⟩

/-- One atomic step of an operation: an enqueued task starts
(`this.stats.inProgress++`), or a started task reaches one of
`downloadTile`'s three terminal paths (already cached / downloaded / failed),
which decrements `inProgress` and increments the matching counter. -/
inductive OpStep : OpState → OpState → Prop
  | start (s : OpState) (h : 0 < s.pending) :
      OpStep s ⟨{ s.stats with inProgress := s.stats.inProgress + 1 }, s.pending - 1⟩
  | finishSkipped (s : OpState) (h : 0 < s.stats.inProgress) :
      OpStep s ⟨{ s.stats with
          skippedTiles := s.stats.skippedTiles + 1
          inProgress := s.stats.inProgress - 1 }, s.pending⟩
  | finishDownloaded (s : OpState) (h : 0 < s.stats.inProgress) :
      OpStep s ⟨{ s.stats with
          downloadedTiles := s.stats.downloadedTiles + 1
          inProgress := s.stats.inProgress - 1 }, s.pending⟩
  | finishFailed (s : OpState) (h : 0 < s.stats.inProgress) :
      OpStep s ⟨{ s.stats with
          failedTiles := s.stats.failedTiles + 1
          inProgress := s.stats.inProgress - 1 }, s.pending⟩

/-- Accounting invariant of an operation: terminal counters, in-progress
count and still-pending tasks always add up to `totalTiles`. -/
theorem opReachable_sum (n : Nat) (s : OpState)
    (h : Relation.ReflTransGen OpStep (opInit n) s) :
    s.stats.downloadedTiles + s.stats.skippedTiles + s.stats.failedTiles +
      s.stats.inProgress + s.pending = s.stats.totalTiles := by
  induction h with
  | refl => simp [opInit]
  | tail _ hbc ih =>
    cases hbc with
    | start ht => simp only at ih ⊢; omega
    | finishSkipped ht => simp only at ih ⊢; omega
    | finishDownloaded ht => simp only at ih ⊢; omega
    | finishFailed ht => simp only at ih ⊢; omega

/-- C3: at every point reachable during an operation,
`downloadedTiles + skippedTiles + failedTiles + inProgress ≤ totalTiles`;
at quiescence (no task in progress, queue drained) the sum equals
`totalTiles`. -/
theorem opStep_stats_invariant (n : Nat) (s : OpState)
    (h : Relation.ReflTransGen OpStep (opInit n) s) :
    s.stats.downloadedTiles + s.stats.skippedTiles + s.stats.failedTiles +
        s.stats.inProgress ≤ s.stats.totalTiles ∧
      (s.stats.inProgress = 0 → s.pending = 0 →
        s.stats.downloadedTiles + s.stats.skippedTiles + s.stats.failedTiles =
          s.stats.totalTiles) := by
  have := opReachable_sum n s h
  omega

/-- Witness for `opStep_stats_invariant`: a one-tile operation that starts
its task and finishes it as downloaded. -/
theorem opStep_stats_invariant_witness :
    ((⟨⟨1, 1, 0, 0, 0, 1⟩, 0⟩ : OpState).stats.downloadedTiles +
          (⟨⟨1, 1, 0, 0, 0, 1⟩, 0⟩ : OpState).stats.skippedTiles +
          (⟨⟨1, 1, 0, 0, 0, 1⟩, 0⟩ : OpState).stats.failedTiles +
          (⟨⟨1, 1, 0, 0, 0, 1⟩, 0⟩ : OpState).stats.inProgress ≤
        (⟨⟨1, 1, 0, 0, 0, 1⟩, 0⟩ : OpState).stats.totalTiles) ∧
      ((⟨⟨1, 1, 0, 0, 0, 1⟩, 0⟩ : OpState).stats.inProgress = 0 →
        (⟨⟨1, 1, 0, 0, 0, 1⟩, 0⟩ : OpState).pending = 0 →
        (⟨⟨1, 1, 0, 0, 0, 1⟩, 0⟩ : OpState).stats.downloadedTiles +
            (⟨⟨1, 1, 0, 0, 0, 1⟩, 0⟩ : OpState).stats.skippedTiles +
            (⟨⟨1, 1, 0, 0, 0, 1⟩, 0⟩ : OpState).stats.failedTiles =
          (⟨⟨1, 1, 0, 0, 0, 1⟩, 0⟩ : OpState).stats.totalTiles) :=
  opStep_stats_invariant 1 ⟨⟨1, 1, 0, 0, 0, 1⟩, 0⟩
    (Relation.ReflTransGen.tail
      (Relation.ReflTransGen.tail Relation.ReflTransGen.refl
        (OpStep.start (opInit 1) (by decide)))
      (OpStep.finishDownloaded ⟨⟨1, 0, 0, 0, 1, 1⟩, 0⟩ (by decide)))

/-- A candidate tile rectangle at one zoom level: the projections of a
feature's bounding-box corners (`topLeft`, `bottomRight`). -/
structure TileRect where
  tlx : Nat
  tly : Nat
  brx : Nat
  bry : Nat
deriving DecidableEq

/-- A GeoJSON feature as `calculateTilesForGeoJSON` consumes it, with its two
real-valued external collaborators kept abstract: `range z` is the candidate
tile rectangle obtained by projecting the corners of `turf.bbox(feature)`
with `latLonToTile` at zoom `z`, and `inter x y z` is
`tileIntersectsFeature(x, y, z, feature)` (`turf.booleanIntersects` of the
feature against the tile corner polygon). -/
structure GeoFeature where
  range : Nat → TileRect
  inter : Nat → Nat → Nat → Bool

/-- A GeoJSON input: `FeatureCollection`, single `Feature`, or a bare
geometry (which the source wraps with `turf.feature`, leaving its extent
unchanged). -/
inductive GeoJSONInput
  | featureCollection (features : List GeoFeature)
  | feature (f : GeoFeature)
  | geometry (f : GeoFeature)

/-- The feature decomposition at the top of `calculateTilesForGeoJSON`. -/
def GeoJSONInput.features : GeoJSONInput → List GeoFeature
  | .featureCollection fs => fs
  | .feature f => [f]
  | .geometry f => [f]

/-- The accumulator of `calculateTilesForGeoJSON`: the `tileSet` of seen keys
and the insertion-ordered `tileMap`.  The JS string key `"z/x/y"` is an
injective encoding of the coordinate triple for non-negative integers and is
modelled by the triple itself. -/
structure TileAcc where
  tileSet : List (Nat × Nat × Nat)
  tileMap : List ((Nat × Nat × Nat) × TileXYZ)
deriving DecidableEq

/-- The inclusive iteration range of a JS `for (v = a; v <= b; v++)` loop
(empty when `b < a`). -/
def natRange (a b : Nat) : List Nat := List.range' a (b + 1 - a)

/-- The body of the inner tile loop of `calculateTilesForGeoJSON` for one
candidate tile, paired with the number of intersection tests it performs
(the JS `||` short-circuits, so an already-seen key or a skipped check
performs none). -/
def processTile (f : GeoFeature) (skipIntersectionCheck : Bool) (z x y : Nat)
    (acc : TileAcc) : TileAcc × Nat :=
  if acc.tileSet.contains (z, x, y) then (acc, 0)
  else if skipIntersectionCheck then
    (⟨acc.tileSet ++ [(z, x, y)], acc.tileMap ++ [((z, x, y), ⟨x, y, z⟩)]⟩, 0)
  else if f.inter x y z then
    (⟨acc.tileSet ++ [(z, x, y)], acc.tileMap ++ [((z, x, y), ⟨x, y, z⟩)]⟩, 1)
  else (acc, 1)

/-- One row (`y` loop) of the candidate rectangle. -/
def processTileRow (f : GeoFeature) (sk : Bool) (z x : Nat) (ys : List Nat)
    (p : TileAcc × Nat) : TileAcc × Nat :=
  ys.foldl (fun q y =>
    ((processTile f sk z x y q.1).1, q.2 + (processTile f sk z x y q.1).2)) p

/-- `potentialTileCount` of a feature at a zoom level:
`(bottomRight.x - topLeft.x + 1) * (bottomRight.y - topLeft.y + 1)` (natural
subtraction: an inverted rectangle clamps to an empty count, and its loops
run zero times either way). -/
def potentialTileCount (f : GeoFeature) (z : Nat) : Nat :=
  ((f.range z).brx + 1 - (f.range z).tlx) * ((f.range z).bry + 1 - (f.range z).tly)

/-- Processing of one feature at one zoom level: compute the candidate tile
rectangle from the feature bounding box, decide the large-region skip
(`potentialTileCount > 10000`), and run the nested tile loops.  Returns the
new accumulator and the number of intersection tests performed. -/
def processFeature (f : GeoFeature) (z : Nat) (acc : TileAcc) : TileAcc × Nat :=
  let r := f.range z
  let skipIntersectionCheck := decide (potentialTileCount f z > 10000)
  (natRange r.tlx r.brx).foldl
    (fun p x => processTileRow f skipIntersectionCheck z x (natRange r.tly r.bry) p)
    (acc, 0)

/-- One zoom level of `calculateTilesForGeoJSON`: process each feature in
input order, recording for each the number of intersection tests performed at
this zoom (the source's `featureIndex` feeds only console output). -/
def processZoom (features : List GeoFeature)
    (p : TileAcc × List ((Nat × GeoFeature) × Nat)) (z : Nat) :
    TileAcc × List ((Nat × GeoFeature) × Nat) :=
  features.foldl (fun q f =>
    ((processFeature f z q.1).1, q.2 ++ [((z, f), (processFeature f z q.1).2)])) p

/-- `calculateTilesForGeoJSON` from `geo.js`, instrumented with the number of
intersection tests performed per `(zoom, feature)`: decompose the input into
features, loop over the zoom levels in ascending order and the features in
input order, and return the tiles in `tileMap` insertion order. -/
def calculateTilesForGeoJSON (geojson : GeoJSONInput) (minZoom maxZoom : Nat) :
    List TileXYZ × List ((Nat × GeoFeature) × Nat) :=
  let features := geojson.features
  let final := (natRange minZoom maxZoom).foldl (processZoom features) (⟨⟨[], []⟩, []⟩)
  (final.1.tileMap.map (fun e => e.2), final.2)

/-- Well-formedness of the accumulator: the key set mirrors the map's keys in
order, keys are unique, and every map entry's key is the coordinate triple of
its tile. -/
def accWF (acc : TileAcc) : Prop :=
  acc.tileSet = acc.tileMap.map Prod.fst ∧ acc.tileSet.Nodup ∧
    ∀ e ∈ acc.tileMap, e.1 = (e.2.z, e.2.x, e.2.y)

theorem foldlPreserve {α β : Type _} (P : α → Prop) (g : α → β → α)
    (hg : ∀ a b, P a → P (g a b)) :
    ∀ (l : List β) (a : α), P a → P (l.foldl g a) := by
  intro l
  induction l with
  | nil => intro a h; exact h
  | cons b l ih => intro a h; exact ih _ (hg a b h)

theorem accWF_append (acc : TileAcc) (z x y : Nat) (h : accWF acc)
    (hk : (z, x, y) ∉ acc.tileSet) :
    accWF ⟨acc.tileSet ++ [(z, x, y)], acc.tileMap ++ [((z, x, y), ⟨x, y, z⟩)]⟩ := by
  obtain ⟨h1, h2, h3⟩ := h
  refine ⟨by simp [h1], ?_, ?_⟩
  · rw [List.nodup_append]
    exact ⟨h2, List.nodup_singleton _, by simpa using hk⟩
  · intro e he
    rcases List.mem_append.mp he with he | he
    · exact h3 e he
    · simp only [List.mem_singleton] at he
      subst he
      rfl

theorem processTile_wf (f : GeoFeature) (sk : Bool) (z x y : Nat) (acc : TileAcc)
    (h : accWF acc) : accWF (processTile f sk z x y acc).1 := by
  unfold processTile
  split
  · exact h
  · next hc =>
    have hk : (z, x, y) ∉ acc.tileSet := by simpa using hc
    split
    · exact accWF_append acc z x y h hk
    · split
      · exact accWF_append acc z x y h hk
      · exact h

theorem processTile_mono (f : GeoFeature) (sk : Bool) (z x y : Nat)
    (acc : TileAcc) (k : Nat × Nat × Nat) (h : k ∈ acc.tileSet) :
    k ∈ (processTile f sk z x y acc).1.tileSet := by
  unfold processTile
  split
  · exact h
  · split
    · simp [h]
    · split
      · simp [h]
      · exact h

theorem processTileRow_wf (f : GeoFeature) (sk : Bool) (z x : Nat)
    (ys : List Nat) (p : TileAcc × Nat) (h : accWF p.1) :
    accWF (processTileRow f sk z x ys p).1 := by
  unfold processTileRow
  exact foldlPreserve (fun q => accWF q.1)
    (fun q y => ((processTile f sk z x y q.1).1, q.2 + (processTile f sk z x y q.1).2))
    (fun q y hq => processTile_wf f sk z x y q.1 hq) ys p h

theorem processTileRow_mono (f : GeoFeature) (sk : Bool) (z x : Nat)
    (ys : List Nat) (p : TileAcc × Nat) (k : Nat × Nat × Nat)
    (h : k ∈ p.1.tileSet) : k ∈ (processTileRow f sk z x ys p).1.tileSet := by
  unfold processTileRow
  exact foldlPreserve (fun q => k ∈ q.1.tileSet)
    (fun q y => ((processTile f sk z x y q.1).1, q.2 + (processTile f sk z x y q.1).2))
    (fun q y hq => processTile_mono f sk z x y q.1 k hq) ys p h

theorem processFeature_wf (f : GeoFeature) (z : Nat) (acc : TileAcc)
    (h : accWF acc) : accWF (processFeature f z acc).1 := by
  unfold processFeature
  exact foldlPreserve (fun q => accWF q.1) _
    (fun q x hq => processTileRow_wf _ _ _ _ _ q hq) _ (acc, 0) h

theorem processFeature_mono (f : GeoFeature) (z : Nat) (acc : TileAcc)
    (k : Nat × Nat × Nat) (h : k ∈ acc.tileSet) :
    k ∈ (processFeature f z acc).1.tileSet := by
  unfold processFeature
  exact foldlPreserve (fun q => k ∈ q.1.tileSet) _
    (fun q x hq => processTileRow_mono _ _ _ _ _ q k hq) _ (acc, 0) h

theorem processZoom_wf (features : List GeoFeature)
    (p : TileAcc × List ((Nat × GeoFeature) × Nat)) (z : Nat) (h : accWF p.1) :
    accWF (processZoom features p z).1 :=
  foldlPreserve (fun q => accWF q.1) _
    (fun q f hq => processFeature_wf f z q.1 hq) features p h

theorem processZoom_mono (features : List GeoFeature)
    (p : TileAcc × List ((Nat × GeoFeature) × Nat)) (z : Nat)
    (k : Nat × Nat × Nat) (h : k ∈ p.1.tileSet) :
    k ∈ (processZoom features p z).1.tileSet :=
  foldlPreserve (fun q => k ∈ q.1.tileSet) _
    (fun q f hq => processFeature_mono f z q.1 k hq) features p h

/-- C6: for every GeoJSON input (bare geometry, `Feature`, or
`FeatureCollection`) and every zoom range, the tile list returned by
`calculateTilesForGeoJSON` contains no two elements with the same
`(z, x, y)` triple, even when input features overlap. -/
theorem calculateTilesForGeoJSON_nodup (geojson : GeoJSONInput)
    (minZoom maxZoom : Nat) :
    ((calculateTilesForGeoJSON geojson minZoom maxZoom).1.map
      (fun t => (t.z, t.x, t.y))).Nodup := by
  have hwf : accWF ((natRange minZoom maxZoom).foldl
      (processZoom geojson.features) ⟨⟨[], []⟩, []⟩).1 :=
    foldlPreserve (fun q => accWF q.1) _
      (fun q z hq => processZoom_wf geojson.features q z hq) _ _
      ⟨rfl, List.nodup_nil, by intro e he; exact absurd he (List.not_mem_nil _)⟩
  obtain ⟨h1, h2, h3⟩ := hwf
  simp only [calculateTilesForGeoJSON, List.map_map]
  have hmaps : (((natRange minZoom maxZoom).foldl (processZoom geojson.features)
        ⟨⟨[], []⟩, []⟩).1.tileMap.map ((fun t => (t.z, t.x, t.y)) ∘ (fun e => e.2))) =
      ((natRange minZoom maxZoom).foldl (processZoom geojson.features)
        ⟨⟨[], []⟩, []⟩).1.tileMap.map Prod.fst := by
    apply List.map_congr_left
    intro e he
    exact (h3 e he).symm
  rw [hmaps, ← h1]
  exact h2

theorem mem_natRange {a b x : Nat} : x ∈ natRange a b ↔ a ≤ x ∧ x ≤ b := by
  unfold natRange
  rw [List.mem_range'_1]
  omega

theorem processTile_skip_count (f : GeoFeature) (z x y : Nat) (acc : TileAcc) :
    (processTile f true z x y acc).2 = 0 := by
  unfold processTile
  split
  · rfl
  · simp

theorem processTile_skip_adds (f : GeoFeature) (z x y : Nat) (acc : TileAcc) :
    (z, x, y) ∈ (processTile f true z x y acc).1.tileSet := by
  unfold processTile
  split
  · next hc => simpa using hc
  · simp


theorem processTileRow_skip_count (f : GeoFeature) (z x : Nat) (ys : List Nat) :
    ∀ p : TileAcc × Nat, (processTileRow f true z x ys p).2 = p.2 := by
  induction ys with
  | nil => intro p; rfl
  | cons y ys ih =>
    intro p
    simp only [processTileRow, List.foldl_cons] at ih ⊢
    rw [ih]
    simp [processTile_skip_count]

theorem processTileRow_skip_adds (f : GeoFeature) (z x : Nat) (ys : List Nat) :
    ∀ (p : TileAcc × Nat) (y : Nat), y ∈ ys →
      (z, x, y) ∈ (processTileRow f true z x ys p).1.tileSet := by
  induction ys with
  | nil => intro p y hy; exact absurd hy (List.not_mem_nil _)
  | cons y0 ys ih =>
    intro p y hy
    simp only [processTileRow, List.foldl_cons] at ih ⊢
    rcases List.mem_cons.mp hy with rfl | hy
    · exact foldlPreserve (fun q => (z, x, y) ∈ q.1.tileSet)
        (fun q y' => ((processTile f true z x y' q.1).1,
          q.2 + (processTile f true z x y' q.1).2))
        (fun q y' hq => processTile_mono f true z x y' q.1 _ hq) ys _
        (processTile_skip_adds f z x y p.1)
    · exact ih _ y hy

theorem foldlRows_count (f : GeoFeature) (z : Nat) (ys : List Nat) :
    ∀ (xs : List Nat) (p : TileAcc × Nat),
      (xs.foldl (fun p x => processTileRow f true z x ys p) p).2 = p.2 := by
  intro xs
  induction xs with
  | nil => intro p; rfl
  | cons x xs ih =>
    intro p
    rw [List.foldl_cons, ih, processTileRow_skip_count]

theorem foldlRows_adds (f : GeoFeature) (z : Nat) (ys : List Nat) :
    ∀ (xs : List Nat) (p : TileAcc × Nat) (x y : Nat), x ∈ xs → y ∈ ys →
      (z, x, y) ∈
        ((xs.foldl (fun p x => processTileRow f true z x ys p) p)).1.tileSet := by
  intro xs
  induction xs with
  | nil => intro p x y hx _; exact absurd hx (List.not_mem_nil _)
  | cons x0 xs ih =>
    intro p x y hx hy
    rw [List.foldl_cons]
    rcases List.mem_cons.mp hx with rfl | hx
    · exact foldlPreserve (fun q => (z, x, y) ∈ q.1.tileSet)
        (fun p x' => processTileRow f true z x' ys p)
        (fun q x' hq => processTileRow_mono f true z x' ys q _ hq) xs _
        (processTileRow_skip_adds f z x ys p y hy)
    · exact ih _ x y hx hy

theorem processFeature_skip_count (f : GeoFeature) (z : Nat) (acc : TileAcc)
    (hbig : potentialTileCount f z > 10000) :
    (processFeature f z acc).2 = 0 := by
  unfold processFeature
  rw [decide_eq_true hbig]
  exact foldlRows_count f z _ _ _

theorem processFeature_skip_adds (f : GeoFeature) (z : Nat) (acc : TileAcc)
    (x y : Nat) (hbig : potentialTileCount f z > 10000)
    (hx1 : (f.range z).tlx ≤ x) (hx2 : x ≤ (f.range z).brx)
    (hy1 : (f.range z).tly ≤ y) (hy2 : y ≤ (f.range z).bry) :
    (z, x, y) ∈ (processFeature f z acc).1.tileSet := by
  unfold processFeature
  rw [decide_eq_true hbig]
  exact foldlRows_adds f z _ _ _ x y (mem_natRange.mpr ⟨hx1, hx2⟩)
    (mem_natRange.mpr ⟨hy1, hy2⟩)

/-- Invariant carried through the zoom/feature loops: every recorded
intersection-test count for a large-region `(zoom, feature)` pair is zero,
and its full candidate rectangle is in the accumulated tile set. -/
def countsOK (p : TileAcc × List ((Nat × GeoFeature) × Nat)) : Prop :=
  ∀ e ∈ p.2, potentialTileCount e.1.2 e.1.1 > 10000 →
    e.2 = 0 ∧ ∀ x y, (e.1.2.range e.1.1).tlx ≤ x → x ≤ (e.1.2.range e.1.1).brx →
      (e.1.2.range e.1.1).tly ≤ y → y ≤ (e.1.2.range e.1.1).bry →
      (e.1.1, x, y) ∈ p.1.tileSet

theorem processZoom_countsOK (features : List GeoFeature) (z : Nat)
    (p : TileAcc × List ((Nat × GeoFeature) × Nat)) (hp : countsOK p) :
    countsOK (processZoom features p z) := by
  unfold processZoom
  refine foldlPreserve countsOK
    (fun q f => ((processFeature f z q.1).1,
      q.2 ++ [((z, f), (processFeature f z q.1).2)]))
    ?_ features p hp
  intro q f hq e he hbig
  rcases List.mem_append.mp he with he | he
  · obtain ⟨h0, hrect⟩ := hq e he hbig
    exact ⟨h0, fun x y a b c d =>
      processFeature_mono f z q.1 _ (hrect x y a b c d)⟩
  · simp only [List.mem_singleton] at he
    subst he
    simp only at hbig ⊢
    exact ⟨processFeature_skip_count f z q.1 hbig,
      fun x y a b c d => processFeature_skip_adds f z q.1 x y hbig a b c d⟩

/-- C5: if, for a feature `f` and zoom `z` that the run actually processed
(witnessed by their recorded test count `n`), the candidate tile rectangle
has `potentialTileCount > 10000`, then the run performed zero
tile-versus-feature intersection tests for `f` at `z` (`n = 0`) and the
returned tile list contains every tile of the full candidate rectangle. -/
theorem calculateTilesForGeoJSON_largeRegion (geojson : GeoJSONInput)
    (minZoom maxZoom z : Nat) (f : GeoFeature) (n : Nat)
    (hmem : ((z, f), n) ∈ (calculateTilesForGeoJSON geojson minZoom maxZoom).2)
    (hbig : potentialTileCount f z > 10000) :
    n = 0 ∧ ∀ x y, (f.range z).tlx ≤ x → x ≤ (f.range z).brx →
      (f.range z).tly ≤ y → y ≤ (f.range z).bry →
      (⟨x, y, z⟩ : TileXYZ) ∈ (calculateTilesForGeoJSON geojson minZoom maxZoom).1 := by
  have hco : countsOK ((natRange minZoom maxZoom).foldl
      (processZoom geojson.features) ⟨⟨[], []⟩, []⟩) :=
    foldlPreserve countsOK (processZoom geojson.features)
      (fun q zz hq => processZoom_countsOK geojson.features zz q hq) _ _
      (fun e he => absurd he (List.not_mem_nil _))
  have hwf : accWF ((natRange minZoom maxZoom).foldl
      (processZoom geojson.features) ⟨⟨[], []⟩, []⟩).1 :=
    foldlPreserve (fun q => accWF q.1) _
      (fun q zz hq => processZoom_wf geojson.features q zz hq) _ _
      ⟨rfl, List.nodup_nil, by intro e he; exact absurd he (List.not_mem_nil _)⟩
  obtain ⟨hs, _, hkey⟩ := hwf
  obtain ⟨h0, hrect⟩ := hco ((z, f), n) hmem hbig
  refine ⟨h0, ?_⟩
  intro x y a b c d
  have hk := hrect x y a b c d
  rw [hs] at hk
  obtain ⟨e, he, hke⟩ := List.mem_map.mp hk
  have := hkey e he
  rw [this] at hke
  have ht : e.2 = ⟨x, y, z⟩ := by
    obtain ⟨e1, e2⟩ := e
    obtain ⟨tx, ty, tz⟩ := e2
    simp only [Prod.mk.injEq] at hke
    simp [hke.1, hke.2.1, hke.2.2]
  simp only [calculateTilesForGeoJSON]
  exact List.mem_map.mpr ⟨e, he, ht⟩

/-- A concrete feature whose candidate rectangle at every zoom has
`potentialTileCount = 201 * 61 = 12261 > 10000`. -/
def largeRegionFeature : GeoFeature :=
  ⟨fun _ => ⟨0, 0, 200, 60⟩, fun _ _ _ => true⟩

/-- Witness for `calculateTilesForGeoJSON_largeRegion`: a single bare-geometry
input at zoom 0 whose rectangle exceeds the threshold; its recorded test count
is zero and an interior rectangle tile is in the result. -/
theorem calculateTilesForGeoJSON_largeRegion_witness :
    (((0 : Nat), largeRegionFeature),
        (processFeature largeRegionFeature 0 ⟨[], []⟩).2) ∈
      (calculateTilesForGeoJSON (.geometry largeRegionFeature) 0 0).2 ∧
    potentialTileCount largeRegionFeature 0 > 10000 ∧
    (processFeature largeRegionFeature 0 ⟨[], []⟩).2 = 0 ∧
    (⟨5, 6, 0⟩ : TileXYZ) ∈
      (calculateTilesForGeoJSON (.geometry largeRegionFeature) 0 0).1 := by
  have hmem : (((0 : Nat), largeRegionFeature),
      (processFeature largeRegionFeature 0 ⟨[], []⟩).2) ∈
      (calculateTilesForGeoJSON (.geometry largeRegionFeature) 0 0).2 :=
    List.mem_singleton.mpr rfl
  have hbig : potentialTileCount largeRegionFeature 0 > 10000 := by decide
  have h := calculateTilesForGeoJSON_largeRegion (.geometry largeRegionFeature)
    0 0 0 largeRegionFeature _ hmem hbig
  exact ⟨hmem, hbig, h.1, h.2 5 6 (by decide) (by decide) (by decide) (by decide)⟩

/-- The `x` component of `latLonToTile` from `geo.js`:
`Math.floor((lon + 180) / 360 * n)` with `n = 2^zoom`, over `ℝ`. -/
noncomputable def latLonToTileX (lon : ℝ) (zoom : Nat) : ℤ :=
  ⌊(lon + 180) / 360 * (2 : ℝ) ^ zoom⌋

/-- The `y` component of `latLonToTile` from `geo.js`:
`Math.floor((1 - Math.log(Math.tan(latRad) + 1 / Math.cos(latRad)) / Math.PI) / 2 * n)`
with `latRad = lat * π / 180`, over `ℝ`. -/
noncomputable def latLonToTileY (lat : ℝ) (zoom : Nat) : ℤ :=
  ⌊(1 - Real.log (Real.tan (lat * Real.pi / 180) +
      1 / Real.cos (lat * Real.pi / 180)) / Real.pi) / 2 * (2 : ℝ) ^ zoom⌋

/-- The bounding box `[west, south, east, north]` returned by
`tileToLatLonBounds`. -/
structure LatLonBounds where
  west : ℝ
  south : ℝ
  east : ℝ
  north : ℝ

/-- `tileToLatLonBounds` from `geo.js`, over `ℝ` (`Math.atan`/`Math.sinh`
become `Real.arctan`/`Real.sinh`). -/
noncomputable def tileToLatLonBounds (x y : Nat) (zoom : Nat) : LatLonBounds :=
  { west := (x : ℝ) / (2 : ℝ) ^ zoom * 360 - 180
    east := ((x : ℝ) + 1) / (2 : ℝ) ^ zoom * 360 - 180
    north := Real.arctan (Real.sinh (Real.pi * (1 - 2 * (y : ℝ) / (2 : ℝ) ^ zoom))) * 180 / Real.pi
    south := Real.arctan (Real.sinh (Real.pi * (1 - 2 * ((y : ℝ) + 1) / (2 : ℝ) ^ zoom))) * 180 / Real.pi }

/-- The Mercator expression of `latLonToTile` is a left inverse of the
latitude expression of `tileToLatLonBounds`:
`log(tan(arctan(sinh t)) + sec(arctan(sinh t))) = t`. -/
theorem merc_arctan_sinh (t : ℝ) :
    Real.log (Real.tan (Real.arctan (Real.sinh t)) +
      1 / Real.cos (Real.arctan (Real.sinh t))) = t := by
  rw [Real.tan_arctan, Real.cos_arctan, one_div_one_div]
  have h1 : (1 : ℝ) + Real.sinh t ^ 2 = Real.cosh t ^ 2 := by
    rw [Real.cosh_sq]; ring
  rw [h1, Real.sqrt_sq (Real.cosh_pos t).le, Real.sinh_add_cosh, Real.log_exp]

/-- The Mercator tile value of the mean of the latitudes of rows `yr` and
`yr + 1` lies strictly between `yr` and `yr + 1`. -/
theorem floor_merc_center (n yr : ℝ) (hn : 0 < n) (φ : ℝ)
    (hφ : φ = (Real.arctan (Real.sinh (Real.pi * (1 - 2 * (yr + 1) / n))) +
      Real.arctan (Real.sinh (Real.pi * (1 - 2 * yr / n)))) / 2) :
    yr < (1 - Real.log (Real.tan φ + 1 / Real.cos φ) / Real.pi) / 2 * n ∧
    (1 - Real.log (Real.tan φ + 1 / Real.cos φ) / Real.pi) / 2 * n < yr + 1 := by
  have hπ : (0 : ℝ) < Real.pi := Real.pi_pos
  set tN : ℝ := Real.pi * (1 - 2 * yr / n) with htN
  set tS : ℝ := Real.pi * (1 - 2 * (yr + 1) / n) with htS
  have htSN : tS < tN := by
    have hdiff : tN - tS = 2 * Real.pi / n := by
      rw [htN, htS]
      field_simp
      ring
    have : 0 < 2 * Real.pi / n := by positivity
    linarith
  have haSN : Real.arctan (Real.sinh tS) < Real.arctan (Real.sinh tN) :=
    Real.arctan_strictMono (Real.sinh_strictMono htSN)
  have haN1 : Real.arctan (Real.sinh tN) < Real.pi / 2 := Real.arctan_lt_pi_div_two _
  have haS2 : -(Real.pi / 2) < Real.arctan (Real.sinh tS) := Real.neg_pi_div_two_lt_arctan _
  have hφ1 : φ < Real.pi / 2 := by rw [hφ]; linarith
  have hφ2 : -(Real.pi / 2) < φ := by rw [hφ]; linarith
  have hφS : Real.arctan (Real.sinh tS) < φ := by rw [hφ]; linarith
  have hφN : φ < Real.arctan (Real.sinh tN) := by rw [hφ]; linarith
  have hgu : Real.arctan (Real.sinh (Real.arsinh (Real.tan φ))) = φ := by
    rw [Real.sinh_arsinh, Real.arctan_tan hφ2 hφ1]
  have hmerc : Real.log (Real.tan φ + 1 / Real.cos φ) = Real.arsinh (Real.tan φ) := by
    have := merc_arctan_sinh (Real.arsinh (Real.tan φ))
    rw [hgu] at this
    exact this
  have htSu : tS < Real.arsinh (Real.tan φ) := by
    have h1 : Real.arctan (Real.sinh tS) <
        Real.arctan (Real.sinh (Real.arsinh (Real.tan φ))) := by rw [hgu]; exact hφS
    exact Real.sinh_strictMono.lt_iff_lt.mp (Real.arctan_strictMono.lt_iff_lt.mp h1)
  have hutN : Real.arsinh (Real.tan φ) < tN := by
    have h1 : Real.arctan (Real.sinh (Real.arsinh (Real.tan φ))) <
        Real.arctan (Real.sinh tN) := by rw [hgu]; exact hφN
    exact Real.sinh_strictMono.lt_iff_lt.mp (Real.arctan_strictMono.lt_iff_lt.mp h1)
  rw [hmerc]
  have e2 : (1 - Real.arsinh (Real.tan φ) / Real.pi) / 2 * n =
      (Real.pi * n - Real.arsinh (Real.tan φ) * n) / (2 * Real.pi) := by
    field_simp
    ring
  constructor
  · have h1 : Real.arsinh (Real.tan φ) * n < tN * n := mul_lt_mul_of_pos_right hutN hn
    have e1 : tN * n = Real.pi * n - 2 * Real.pi * yr := by
      rw [htN]; field_simp; ring
    rw [e2, lt_div_iff₀ (by positivity)]
    rw [e1] at h1
    linarith
  · have h1 : tS * n < Real.arsinh (Real.tan φ) * n := mul_lt_mul_of_pos_right htSu hn
    have e1 : tS * n = Real.pi * n - 2 * Real.pi * (yr + 1) := by
      rw [htS]; field_simp; ring
    rw [e2, div_lt_iff₀ (by positivity)]
    rw [e1] at h1
    linarith

/-- C9: for every zoom `z` and tile `0 ≤ x, y < 2^z`, applying `latLonToTile`
at zoom `z` to the center of the bounds returned by
`tileToLatLonBounds(x, y, z)` returns exactly `(x, y)`. -/
theorem latLonToTile_center_roundtrip (z x y : Nat)
    (hx : x < 2 ^ z) (hy : y < 2 ^ z) :
    latLonToTileX (((tileToLatLonBounds x y z).west + (tileToLatLonBounds x y z).east) / 2) z
        = (x : ℤ) ∧
    latLonToTileY (((tileToLatLonBounds x y z).south + (tileToLatLonBounds x y z).north) / 2) z
        = (y : ℤ) := by
  have hn : (0 : ℝ) < (2 : ℝ) ^ z := by positivity
  have hπ : (0 : ℝ) < Real.pi := Real.pi_pos
  clear hx hy
  constructor
  · have hval : ((((tileToLatLonBounds x y z).west + (tileToLatLonBounds x y z).east) / 2) + 180)
        / 360 * (2 : ℝ) ^ z = (x : ℝ) + 1 / 2 := by
      simp only [tileToLatLonBounds]
      field_simp
      ring
    unfold latLonToTileX
    rw [hval, Int.floor_eq_iff]
    constructor
    · push_cast; linarith
    · push_cast; linarith
  · have hφeq : (((tileToLatLonBounds x y z).south + (tileToLatLonBounds x y z).north) / 2)
        * Real.pi / 180 =
        (Real.arctan (Real.sinh (Real.pi * (1 - 2 * ((y : ℝ) + 1) / (2 : ℝ) ^ z))) +
          Real.arctan (Real.sinh (Real.pi * (1 - 2 * (y : ℝ) / (2 : ℝ) ^ z)))) / 2 := by
      simp only [tileToLatLonBounds]
      field_simp
      ring
    have hb := floor_merc_center ((2 : ℝ) ^ z) (y : ℝ) hn _ rfl
    unfold latLonToTileY
    rw [hφeq, Int.floor_eq_iff]
    constructor
    · push_cast; linarith [hb.1]
    · push_cast; linarith [hb.2]

/-- Witness for `latLonToTile_center_roundtrip` at the tile
`(z, x, y) = (1, 0, 1)`. -/
theorem latLonToTile_center_roundtrip_witness :
    (0 : Nat) < 2 ^ 1 ∧ (1 : Nat) < 2 ^ 1 ∧
      (latLonToTileX (((tileToLatLonBounds 0 1 1).west + (tileToLatLonBounds 0 1 1).east) / 2) 1
          = (0 : ℤ) ∧
        latLonToTileY (((tileToLatLonBounds 0 1 1).south + (tileToLatLonBounds 0 1 1).north) / 2) 1
          = (1 : ℤ)) :=
  ⟨by decide, by decide, latLonToTile_center_roundtrip 1 0 1 (by decide) (by decide)⟩
